import Mathlib

/-!
Shallow embedding of the PDF-bot's core (vector_store.py, pdf_parser.py,
handlers.py) and proofs about it.  Python strings are modelled as `List Char`,
Python floats as `ℚ`, the fallible ChromaDB backend as explicit outcome
oracles, SHA1 content hashes as an abstract hash-function parameter, and the
chunker's `while` loop with explicit fuel (so non-termination is the statement
that no amount of fuel produces a result).
-/

/-- Python whitespace as matched by `str.split()` / `str.strip()` / `\s`
(ASCII part): space, tab, newline, carriage return, vertical tab, form feed. -/
def pyIsSpace (c : Char) : Bool :=
  c = ' ' || c = '\t' || c = '\n' || c = '\r' || c = '\x0b' || c = '\x0c'

/-- Helper for `pySplit`: `cur` is the reversed word currently being read. -/
def pySplitAux : List Char → List Char → List (List Char)
  | [], cur => if cur.isEmpty then [] else [cur.reverse]
  | c :: rest, cur =>
    if pyIsSpace c then
      if cur.isEmpty then pySplitAux rest []
      else cur.reverse :: pySplitAux rest []
    else pySplitAux rest (c :: cur)

/-- Python `text.split()` (no separator): split on runs of whitespace,
discarding empty fields. -/
def pySplit (s : List Char) : List (List Char) :=
  pySplitAux s []

/-- Python `text.strip()`: drop whitespace from both ends. -/
def pyStrip (l : List Char) : List Char :=
  ((l.dropWhile pyIsSpace).reverse.dropWhile pyIsSpace).reverse

/-- Python slice `l[a:b]` (step 1): negative indices count from the end,
out-of-range indices are clamped. -/
def pySlice (l : List α) (a b : Int) : List α :=
  (l.drop ((if a < 0 then max ((l.length : Int) + a) 0
            else min a (l.length : Int)).toNat)).take
    ((if b < 0 then max ((l.length : Int) + b) 0
      else min b (l.length : Int)).toNat -
     (if a < 0 then max ((l.length : Int) + a) 0
      else min a (l.length : Int)).toNat)

/-- Python `" ".join(words)`. -/
def joinWords (ws : List (List Char)) : List Char :=
  List.intercalate [' '] ws

/-- Default `chunk_size` of `VectorStore` (words per chunk). -/
def chunkSizeDefault : Nat := 1000

/-- Default `chunk_overlap` of `VectorStore` (words). -/
def chunkOverlapDefault : Nat := 200

/-- Default `batch_size` of `VectorStore`. -/
def batchSizeDefault : Nat := 256

/-- Default `similarity_threshold` of `VectorStore.search`. -/
def similarityThresholdDefault : ℚ := 15 / 100

/-- The `while start < len(words)` loop of `_split_text_into_chunks`
(vector_store.py).  Each iteration takes `end = min(start + chunk_size,
len(words))`, appends `" ".join(words[start:end])`, sets
`start = end - chunk_overlap` and breaks once `start >= len(words)`.
`fuel` bounds the number of iterations; `none` means the loop has not
finished within `fuel` iterations. -/
def splitLoop (cs ov : Nat) (ws : List (List Char)) :
    Nat → Int → List (List Char) → Option (List (List Char))
  | 0, _, _ => none
  | fuel + 1, start, acc =>
    if start < (ws.length : Int) then
      if (ws.length : Int) ≤ min (start + (cs : Int)) (ws.length : Int) - (ov : Int) then
        some (acc ++ [joinWords (pySlice ws start (min (start + (cs : Int)) (ws.length : Int)))])
      else
        splitLoop cs ov ws fuel
          (min (start + (cs : Int)) (ws.length : Int) - (ov : Int))
          (acc ++ [joinWords (pySlice ws start (min (start + (cs : Int)) (ws.length : Int)))])
    else some acc

/-- Embedding of `_split_text_into_chunks` (vector_store.py): if the word count is within
`chunk_size` the whole text is one chunk, otherwise the sliding-window loop
runs.  `fuel` bounds loop iterations: `none` = the loop did not terminate
within `fuel` iterations. -/
def split_text_into_chunks (cs ov : Nat) (fuel : Nat) (text : List Char) :
    Option (List (List Char)) :=
  if (pySplit text).length ≤ cs then some [text]
  else splitLoop cs ov (pySplit text) fuel 0 []

/-- Embedding of `_passes_quality_check` (vector_store.py).  Python's Unicode
`str.isalpha` is modelled by ASCII `Char.isAlpha` (all concrete inputs used
in proofs are ASCII); the float literals `0.3` and `2.0` are modelled as the
exact rationals they denote in the source text. -/
def passes_quality_check (chunk : List Char) : Bool :=
  if chunk.isEmpty ∨ (pyStrip chunk).length = 0 then false
  else if (pyStrip chunk).length < 100 then false
  else if (pySplit chunk).length < 10 then false
  else if 0 < chunk.length ∧
      ((chunk.filter Char.isAlpha).length : ℚ) / (chunk.length : ℚ) < 3 / 10 then false
  else if ¬ (pySplit chunk).isEmpty ∧
      ((((pySplit chunk).map List.length).sum : ℚ)) / (((pySplit chunk).length : ℚ)) < 2
    then false
  else true

/-- In-process ingestion state of `VectorStore.add_document`:
the pending `doc_batch`, the `seen_hashes` cache, the chunks persisted in the
backend so far, and how many `_add_batch` flushes have been issued (used to
index the flush-outcome oracle).  The parallel `meta_batch`/`id_batch` lists
of the source carry pure metadata and do not affect control flow; they are
elided. -/
structure IngestState where
  batch : List (List Char)
  seen : List String
  persisted : List (List Char)
  flushIdx : Nat
deriving DecidableEq, Repr

/-- The `for i, chunk in enumerate(chunks)` loop of `add_document`
(vector_store.py): quality gate, dedup against `seen_hashes` (the hash is
added as soon as the chunk is appended to the pending batch), and a flush via
`_add_batch` whenever the batch reaches `batch_size`.  `hashFn` abstracts
SHA1; `flushOk k` is the outcome of the k-th `_add_batch` call (after its
internal retries).  A failed flush aborts with `False` as in the source. -/
def add_document_loop (hashFn : List Char → String) (bs : Nat) (flushOk : Nat → Bool) :
    List (List Char) → IngestState → Bool × IngestState
  | [], s => (true, s)
  | chunk :: rest, s =>
    if passes_quality_check chunk = false then add_document_loop hashFn bs flushOk rest s
    else if hashFn chunk ∈ s.seen then add_document_loop hashFn bs flushOk rest s
    else
      if bs ≤ s.batch.length + 1 then
        if flushOk s.flushIdx then
          add_document_loop hashFn bs flushOk rest
            { batch := [], seen := s.seen ++ [hashFn chunk],
              persisted := s.persisted ++ (s.batch ++ [chunk]), flushIdx := s.flushIdx + 1 }
        else
          (false, { batch := s.batch ++ [chunk], seen := s.seen ++ [hashFn chunk],
                    persisted := s.persisted, flushIdx := s.flushIdx + 1 })
      else
        add_document_loop hashFn bs flushOk rest
          { batch := s.batch ++ [chunk], seen := s.seen ++ [hashFn chunk],
            persisted := s.persisted, flushIdx := s.flushIdx }

/-- Embedding of `add_document` (vector_store.py): split the text into chunks, run the
batching loop starting from the current `seen_hashes` (`seen0`), then flush
the remaining partial batch.  Returns `none` when the chunker's loop does not
terminate within `fuel` iterations, otherwise the source's boolean result
together with the final in-process state. -/
def add_document (hashFn : List Char → String) (bs : Nat) (flushOk : Nat → Bool)
    (fuel cs ov : Nat) (text : List Char) (seen0 : List String) :
    Option (Bool × IngestState) :=
  match split_text_into_chunks cs ov fuel text with
  | none => none
  | some chunks =>
    match add_document_loop hashFn bs flushOk chunks ⟨[], seen0, [], 0⟩ with
    | (false, s) => some (false, s)
    | (true, s) =>
      if s.batch.isEmpty then some (true, s)
      else if flushOk s.flushIdx then
        some (true, ⟨[], s.seen, s.persisted ++ s.batch, s.flushIdx + 1⟩)
      else some (false, ⟨s.batch, s.seen, s.persisted, s.flushIdx + 1⟩)

/-- Observable actions of `_add_batch` (vector_store.py): a write attempt
(0-based index), a `time.sleep` of the given number of seconds, and a
`_reconnect_client` call (whose own failure is caught and logged). -/
inductive RetryEvent where
  | attempt (i : Nat)
  | sleep (secs : Nat)
  | reconnect
deriving DecidableEq, Repr

/-- The `for attempt in range(max_retries)` loop of `_add_batch`
(vector_store.py).  `addOk i` is whether the i-th `collection.add` succeeds.
On a non-final failure it sleeps `backoff` seconds, doubles the backoff and
attempts a reconnect; on the final failure it returns `False` immediately.
The `[]` case is the `return False` after the loop. -/
def add_batch_from (addOk : Nat → Bool) :
    List Nat → Nat → List RetryEvent → Bool × List RetryEvent
  | [], _, events => (false, events)
  | i :: rest, backoff, events =>
    if addOk i then (true, events ++ [RetryEvent.attempt i])
    else if rest.isEmpty then (false, events ++ [RetryEvent.attempt i])
    else add_batch_from addOk rest (backoff * 2)
        (events ++ [RetryEvent.attempt i, RetryEvent.sleep backoff, RetryEvent.reconnect])

/-- Embedding of `_add_batch` (vector_store.py): `max_retries = 3`, `backoff_time = 1`. -/
def add_batch (addOk : Nat → Bool) : Bool × List RetryEvent :=
  add_batch_from addOk (List.range 3) 1 []

/-- Recogniser for write-attempt events. -/
def isAttemptEv : RetryEvent → Bool
  | RetryEvent.attempt _ => true
  | _ => false

/-- The conversion `similarity_score = 1.0 / (1.0 + distance)` as computed in `search` and
`search_in_document` (vector_store.py); distances are modelled as `ℚ`. -/
def similarityScore (distance : ℚ) : ℚ :=
  1 / (1 + distance)

/-- One row of a ChromaDB query response as consumed by `search`
(vector_store.py): the metadata fields that `search` reads, the distance and
the stored document text. -/
structure RawRow where
  doc_id : String
  chunk_id : String
  chunk_index : Nat
  text : String
  distance : ℚ
deriving DecidableEq, Repr

/-- One element of the result list built by `search` /
`search_in_document` (vector_store.py). -/
structure SearchResult where
  doc_id : String
  chunk_id : String
  chunk_index : Nat
  text : String
  similarity_score : ℚ
deriving DecidableEq, Repr

/-- The result dict built from one backend row. -/
def toSearchResult (r : RawRow) : SearchResult :=
  ⟨r.doc_id, r.chunk_id, r.chunk_index, r.text, similarityScore r.distance⟩

/-- The ordering used by `filtered_results.sort(key=..., reverse=True)`:
descending similarity score. -/
def scoreGE (a b : SearchResult) : Prop :=
  b.similarity_score ≤ a.similarity_score

instance : DecidableRel scoreGE :=
  fun a b => inferInstanceAs (Decidable (b.similarity_score ≤ a.similarity_score))

instance : IsTotal SearchResult scoreGE :=
  ⟨fun a b => le_total b.similarity_score a.similarity_score⟩

instance : IsTrans SearchResult scoreGE :=
  ⟨fun _ _ _ hab hbc => le_trans hbc hab⟩

/-- The post-processing of `search` (vector_store.py) on a backend response
`rows` (the backend is asked for `n_results * 2` raw candidates; `rows` is
whatever it returned): convert distance to similarity, keep rows with
`similarity_score >= similarity_threshold`, sort descending by score
(Python's stable sort), truncate to `n_results`. -/
def search (nResults : Nat) (threshold : ℚ) (rows : List RawRow) : List SearchResult :=
  ((rows.filterMap fun r =>
      if threshold ≤ similarityScore r.distance then some (toSearchResult r) else none)
    |>.insertionSort scoreGE).take nResults

/-- Embedding of `search_in_document` (vector_store.py): identical post-processing to
`search`; the `where doc_id` restriction is applied by the backend, so `rows`
is the (already document-scoped) backend response. -/
def search_in_document (nResults : Nat) (threshold : ℚ) (rows : List RawRow) :
    List SearchResult :=
  ((rows.filterMap fun r =>
      if threshold ≤ similarityScore r.distance then some (toSearchResult r) else none)
    |>.insertionSort scoreGE).take nResults

/-- Embedding of `clear_all` (vector_store.py): `client.reset()` first (its failure is the
`resetOk = false` case, caught by the `except` which returns `False` without
touching the cache); only after a successful reset is `seen_hashes.clear()`
executed. -/
def clear_all (resetOk : Bool) (seenHashes : List String) : Bool × List String :=
  if resetOk then (true, []) else (false, seenHashes)

/-- The `self.min_text_length` attribute of `OptimizedPDFParser` (pdf_parser.py). -/
def minTextLength : Nat := 120

/-- The character class `[A-Za-z0-9ÄÖÜäöüß]` of `_is_text_sufficient`
(pdf_parser.py). -/
def isGermanAlnum (c : Char) : Bool :=
  c.isAlphanum || c = 'Ä' || c = 'Ö' || c = 'Ü' ||
    c = 'ä' || c = 'ö' || c = 'ü' || c = 'ß'

/-- Embedding of `_is_text_sufficient` (pdf_parser.py): reject empty text, text whose
whitespace-stripped length is below `min_text_length`, text whose
alphanumeric-character count is below half of `min_text_length`, or text with
fewer than 20 words. -/
def is_text_sufficient (text : List Char) : Bool :=
  if text.isEmpty then false
  else if (text.filter fun c => !pyIsSpace c).length < minTextLength then false
  else if (((text.filter fun c => !pyIsSpace c).filter isGermanAlnum).length : ℚ) <
      (minTextLength : ℚ) * (1 / 2) then false
  else if (pySplit text).length < 20 then false
  else true

/-- The decision logic of `_process_page_async` (pdf_parser.py) given the
native extraction result `page_text` and the best OCR result `ocr_text`:
sufficient native text wins, else sufficient OCR text, else
`page_text if page_text else ocr_text`. -/
def process_page (page_text ocr_text : List Char) : List Char :=
  if is_text_sufficient page_text then page_text
  else if is_text_sufficient ocr_text then ocr_text
  else if page_text ≠ [] then page_text
  else ocr_text

/-- Outcome of one page task as seen by `extract_paragraphs_from_pdf`
(pdf_parser.py): an exception captured by
`asyncio.gather(..., return_exceptions=True)`, the `None` that
`_process_page_async` returns from its own `except` handler, or a text. -/
inductive PageOutcome where
  | exc
  | noneResult
  | ok (text : List Char)
deriving DecidableEq, Repr

/-- The per-result filter of `extract_paragraphs_from_pdf` (pdf_parser.py):
exceptions are logged and skipped, falsy results are skipped, and non-empty
results are kept stripped when `len(result.strip()) > 0`. -/
def page_entry : PageOutcome → Option (List Char)
  | PageOutcome.exc => none
  | PageOutcome.noneResult => none
  | PageOutcome.ok t =>
    if t ≠ [] ∧ 0 < (pyStrip t).length then some (pyStrip t) else none

/-- Embedding of `extract_paragraphs_from_pdf` (pdf_parser.py).  Here `none` models the outer
`except` path (the PDF could not be opened/read: caught, logged, `[]`
returned); `some pages` is the list of per-page outcomes gathered by
`asyncio.gather`. -/
def extract_paragraphs_from_pdf : Option (List PageOutcome) → List (List Char)
  | none => []
  | some pages => pages.filterMap page_entry

/-- One entry of `all_results` in `_handle_global_search` (handlers.py): a
search result tagged with `chunk['source_pdf'] = pdf_file`. -/
structure GlobalResult where
  res : SearchResult
  source_pdf : String
deriving DecidableEq, Repr

/-- Descending-score ordering used by `all_results.sort(key=...,
reverse=True)` (handlers.py). -/
def gscoreGE (a b : GlobalResult) : Prop :=
  b.res.similarity_score ≤ a.res.similarity_score

instance : DecidableRel gscoreGE :=
  fun a b => inferInstanceAs (Decidable (b.res.similarity_score ≤ a.res.similarity_score))

instance : IsTotal GlobalResult gscoreGE :=
  ⟨fun a b => le_total b.res.similarity_score a.res.similarity_score⟩

instance : IsTrans GlobalResult gscoreGE :=
  ⟨fun _ _ _ hab hbc => le_trans hbc hab⟩

/-- The per-document body of the `for pdf_file in pdf_files` loop of
`_handle_global_search` (handlers.py): `get_combined_context_for_document(...,
max_chunks=2)` runs `search_in_document` with `n_results=2` at the default
threshold, and `chunks_info[:2]` is taken and tagged with the source PDF.
A document whose indexing or search fails contributes nothing (the source's
`search_in_document` returns `[]` on error, modelled by a response yielding
no results). -/
def doc_contribution (p : String × List RawRow) : List GlobalResult :=
  ((search_in_document 2 similarityThresholdDefault p.2).take 2).map
    fun c => ⟨c, p.1⟩

/-- The result-merging part of `_handle_global_search` (handlers.py):
concatenate every document's (≤ 2) tagged results in document order, sort by
similarity score descending, keep the top 4 (`all_results[:4]`). -/
def handle_global_search (perDoc : List (String × List RawRow)) : List GlobalResult :=
  (((perDoc.map doc_contribution).flatten).insertionSort gscoreGE).take 4

/-- SHA1 modelled as an abstract hash parameter; concrete runs instantiate it
with the injective identity encoding of the chunk text. -/
def hashEnc (c : List Char) : String :=
  String.mk c

/-- Concrete 109-character, 10-word text used in concrete ingestion runs;
it passes `passes_quality_check`. -/
def c2text : List Char :=
  joinWords (List.replicate 10 (List.replicate 10 'a'))

/-- Invariant of the ingestion loop: every hash in the `seen_hashes` cache
either predates the call or is the hash of a chunk that has at least been
appended to the pending batch (persisted, or still sitting in `batch`). -/
def SeenCovered (hashFn : List Char → String) (seen0 : List String)
    (s : IngestState) : Prop :=
  ∀ h ∈ s.seen, h ∈ seen0 ∨ ∃ c, (c ∈ s.persisted ∨ c ∈ s.batch) ∧ hashFn c = h

/-! ## Helper lemmas -/

theorem pySplitAux_word (w : List Char) (hw : ∀ c ∈ w, pyIsSpace c = false) :
    ∀ s cur, pySplitAux (w ++ s) cur = pySplitAux s (w.reverse ++ cur) := by
  induction w with
  | nil => intro s cur; simp
  | cons c w ih =>
    intro s cur
    have hc : pyIsSpace c = false := hw c (by simp)
    have hw' : ∀ d ∈ w, pyIsSpace d = false := fun d hd => hw d (by simp [hd])
    simp only [List.cons_append, pySplitAux, hc, Bool.false_eq_true, if_false,
      List.reverse_cons, List.append_assoc, List.singleton_append]
    exact ih hw' s (c :: cur)

theorem joinWords_nil : joinWords [] = [] := rfl

theorem joinWords_singleton (w : List Char) : joinWords [w] = w := by
  simp [joinWords, List.intercalate]

theorem joinWords_cons (w v : List Char) (rest : List (List Char)) :
    joinWords (w :: v :: rest) = w ++ ' ' :: joinWords (v :: rest) := by
  simp [joinWords, List.intercalate, List.intersperse]

theorem pySplit_join (ws : List (List Char))
    (h : ∀ w ∈ ws, w ≠ [] ∧ ∀ c ∈ w, pyIsSpace c = false) :
    pySplit (joinWords ws) = ws := by
  induction ws with
  | nil => rfl
  | cons w rest ih =>
    obtain ⟨hw0, hw1⟩ := h w (by simp)
    cases rest with
    | nil =>
      rw [joinWords_singleton]
      show pySplitAux w [] = [w]
      have := pySplitAux_word w hw1 [] []
      rw [List.append_nil] at this
      rw [this]
      simp [pySplitAux, hw0]
    | cons v rest' =>
      rw [joinWords_cons]
      show pySplitAux (w ++ ' ' :: joinWords (v :: rest')) [] = w :: v :: rest'
      rw [pySplitAux_word w hw1 (' ' :: joinWords (v :: rest')) []]
      have hrev : (w.reverse ++ []).isEmpty = false := by
        simp [List.isEmpty_iff, hw0]
      simp only [pySplitAux, show pyIsSpace ' ' = true from rfl, if_true, hrev,
        Bool.false_eq_true, if_false]
      rw [List.append_nil, List.reverse_reverse]
      exact congrArg (w :: ·) (ih fun u hu => h u (by simp [hu]))

theorem pySplitAux_sound :
    ∀ (s cur : List Char), (∀ c ∈ cur, pyIsSpace c = false) →
      ∀ w ∈ pySplitAux s cur, w ≠ [] ∧ ∀ c ∈ w, pyIsSpace c = false := by
  intro s
  induction s with
  | nil =>
    intro cur hcur w hw
    by_cases hc : cur.isEmpty
    · simp [pySplitAux, hc] at hw
    · simp only [pySplitAux, hc, Bool.false_eq_true, if_false, List.mem_singleton] at hw
      subst hw
      constructor
      · simpa [List.isEmpty_iff] using hc
      · intro c hc'; exact hcur c (by simpa using hc')
  | cons c rest ih =>
    intro cur hcur w hw
    by_cases hs : pyIsSpace c
    · by_cases hc : cur.isEmpty
      · simp only [pySplitAux, hs, if_true, hc] at hw
        exact ih [] (by simp) w hw
      · simp only [pySplitAux, hs, if_true, hc, Bool.false_eq_true, if_false,
          List.mem_cons] at hw
        rcases hw with hw | hw
        · subst hw
          constructor
          · simpa [List.isEmpty_iff] using hc
          · intro d hd; exact hcur d (by simpa using hd)
        · exact ih [] (by simp) w hw
    · simp only [pySplitAux, hs, Bool.false_eq_true, if_false] at hw
      refine ih (c :: cur) ?_ w hw
      intro d hd
      rcases List.mem_cons.mp hd with hd | hd
      · subst hd; simpa using hs
      · exact hcur d hd

theorem pySplit_sound (s : List Char) :
    ∀ w ∈ pySplit s, w ≠ [] ∧ ∀ c ∈ w, pyIsSpace c = false :=
  pySplitAux_sound s [] (by simp)

theorem pySlice_natCast (l : List α) (a b : Nat) (ha : a ≤ l.length)
    (hb : b ≤ l.length) :
    pySlice l (a : Int) (b : Int) = (l.drop a).take (b - a) := by
  have hna : ¬ ((a : Int) < 0) := by omega
  have hnb : ¬ ((b : Int) < 0) := by omega
  have hma : min (a : Int) (l.length : Int) = (a : Int) :=
    min_eq_left (by exact_mod_cast ha)
  have hmb : min (b : Int) (l.length : Int) = (b : Int) :=
    min_eq_left (by exact_mod_cast hb)
  simp only [pySlice, hna, if_false, hnb, hma, hmb, Int.toNat_natCast]

theorem splitLoop_fix (cs ov : Nat) (ws : List (List Char)) (start : Int)
    (h1 : start < (ws.length : Int))
    (h2 : min (start + (cs : Int)) (ws.length : Int) - (ov : Int) = start) :
    ∀ fuel acc, splitLoop cs ov ws fuel start acc = none := by
  intro fuel
  induction fuel with
  | zero => intro acc; rfl
  | succ n ih =>
    intro acc
    have h3 : ¬ ((ws.length : Int) ≤
        min (start + (cs : Int)) (ws.length : Int) - (ov : Int)) := by
      rw [h2]; omega
    rw [splitLoop, if_pos h1, if_neg h3, h2]
    exact ih _

theorem splitLoop_ov0 (cs : Nat) (hcs : 1 ≤ cs) (ws : List (List Char))
    (hws : ∀ w ∈ ws, w ≠ [] ∧ ∀ c ∈ w, pyIsSpace c = false) :
    ∀ (fuel start : Nat) (acc : List (List Char)), start < ws.length →
      ws.length - start ≤ fuel →
      ∃ out, splitLoop cs 0 ws fuel (start : Int) acc = some out ∧
        (out.map pySplit).flatten = (acc.map pySplit).flatten ++ ws.drop start := by
  intro fuel
  induction fuel with
  | zero => intro start acc h1 h2; omega
  | succ n ih =>
    intro start acc h1 h2
    have hstart : (start : Int) < (ws.length : Int) := by exact_mod_cast h1
    have hsub : ∀ u ∈ ws.drop start, u ≠ [] ∧ ∀ c ∈ u, pyIsSpace c = false :=
      fun u hu => hws u (List.drop_subset _ _ hu)
    by_cases hcase : ws.length ≤ start + cs
    · have hmin : min ((start : Int) + (cs : Int)) (ws.length : Int) =
          (ws.length : Int) := by
        rw [min_eq_right]; exact_mod_cast hcase
      have hcond : (ws.length : Int) ≤
          min ((start : Int) + (cs : Int)) (ws.length : Int) - ((0 : Nat) : Int) := by
        rw [hmin]; simp
      rw [splitLoop, if_pos hstart, if_pos hcond, hmin]
      refine ⟨_, rfl, ?_⟩
      have hslice : pySlice ws (start : Int) ((ws.length : Nat) : Int) =
          (ws.drop start).take (ws.length - start) :=
        pySlice_natCast ws start ws.length (le_of_lt h1) le_rfl
      have hdt : (ws.drop start).take (ws.length - start) = ws.drop start := by
        rw [← List.length_drop, List.take_length]
      rw [hslice, hdt, List.map_append, List.flatten_append]
      simp only [List.map_cons, List.map_nil, List.flatten_cons, List.flatten_nil,
        List.append_nil]
      rw [pySplit_join _ hsub]
    · push_neg at hcase
      have hmin : min ((start : Int) + (cs : Int)) (ws.length : Int) =
          ((start + cs : Nat) : Int) := by
        push_cast
        rw [min_eq_left]
        exact_mod_cast le_of_lt hcase
      have hcond : ¬ ((ws.length : Int) ≤
          min ((start : Int) + (cs : Int)) (ws.length : Int) - ((0 : Nat) : Int)) := by
        rw [hmin]
        push_cast
        omega
      rw [splitLoop, if_pos hstart, if_neg hcond, hmin]
      have harg : ((start + cs : Nat) : Int) - ((0 : Nat) : Int) =
          ((start + cs : Nat) : Int) := by push_cast; ring
      rw [harg]
      have hslice : pySlice ws (start : Int) ((start + cs : Nat) : Int) =
          (ws.drop start).take cs := by
        rw [pySlice_natCast ws start (start + cs) (le_of_lt h1) (le_of_lt hcase)]
        congr 1
        omega
      obtain ⟨out, hout, hflat⟩ :=
        ih (start + cs)
          (acc ++ [joinWords (pySlice ws (start : Int) ((start + cs : Nat) : Int))])
          hcase (by omega)
      refine ⟨out, hout, ?_⟩
      rw [hflat, hslice, List.map_append, List.flatten_append]
      simp only [List.map_cons, List.map_nil, List.flatten_cons, List.flatten_nil,
        List.append_nil]
      have hsub2 : ∀ u ∈ (ws.drop start).take cs,
          u ≠ [] ∧ ∀ c ∈ u, pyIsSpace c = false :=
        fun u hu => hsub u (List.take_subset _ _ hu)
      rw [pySplit_join _ hsub2, List.append_assoc]
      congr 1
      exact List.drop_take_append_drop ws start cs

/-! ## Claim C1 -/

/-- C1: the claim says `_split_text_into_chunks` terminates whenever
`0 < overlap < chunk_size` and the word count exceeds `chunk_size`.  It does
not: with `chunk_size = 2`, `overlap = 1` and the three-word text `"a b c"`,
no iteration bound makes the loop finish — once the window end reaches the
end of the text, `start = len(words) - overlap < len(words)` is a fixed point
and the loop re-emits the final window forever. -/
theorem c1_chunking_nonterminating :
    ∀ fuel, split_text_into_chunks 2 1 fuel ['a', ' ', 'b', ' ', 'c'] = none := by
  intro fuel
  have he : pySplit ['a', ' ', 'b', ' ', 'c'] = [['a'], ['b'], ['c']] := by decide
  unfold split_text_into_chunks
  rw [he, if_neg (by decide)]
  cases fuel with
  | zero => rfl
  | succ n =>
    rw [splitLoop, if_pos (by decide), if_neg (by decide)]
    cases n with
    | zero => rfl
    | succ m =>
      rw [splitLoop, if_pos (by decide), if_neg (by decide)]
      exact splitLoop_fix 2 1 _ _ (by decide) (by decide) m _

/-! ## Claim C5 -/

/-- C5 counterexample: the claim quantifies over every `chunk_size N`; at
`N = 0` with the one-word text `"a"` the chunker never terminates, so no
chunk sequence is produced at all, let alone one reconstituting the text. -/
theorem c5_counterexample :
    ¬ ∃ fuel out, split_text_into_chunks 0 0 fuel ['a'] = some out ∧
      (out.map pySplit).flatten = pySplit ['a'] := by
  rintro ⟨fuel, out, hout, -⟩
  have hnone : split_text_into_chunks 0 0 fuel ['a'] = none := by
    unfold split_text_into_chunks
    rw [if_neg (by decide)]
    exact splitLoop_fix 0 0 (pySplit ['a']) 0 (by decide) (by decide) fuel []
  rw [hnone] at hout
  exact Option.noConfusion hout

/-- C5 (amended to `chunk_size ≥ 1`): with `overlap = 0` the chunker
terminates and concatenating the word sequences of all chunks, in order,
reproduces the word sequence of the original text exactly. -/
theorem c5_chunks_reconstruct (cs : Nat) (text : List Char) (hcs : 1 ≤ cs) :
    ∃ fuel out, split_text_into_chunks cs 0 fuel text = some out ∧
      (out.map pySplit).flatten = pySplit text := by
  by_cases h : (pySplit text).length ≤ cs
  · refine ⟨0, [text], ?_, ?_⟩
    · unfold split_text_into_chunks
      rw [if_pos h]
    · simp
  · push_neg at h
    have h0 : 0 < (pySplit text).length := by omega
    obtain ⟨out, hout, hflat⟩ :=
      splitLoop_ov0 cs hcs (pySplit text) (pySplit_sound text)
        (pySplit text).length 0 [] h0 (by omega)
    refine ⟨(pySplit text).length, out, ?_, ?_⟩
    · unfold split_text_into_chunks
      rw [if_neg (not_le.mpr h)]
      simpa using hout
    · simpa using hflat

/-- C5 witness: the amended theorem applied at `chunk_size = 1` and the
two-word text `"a b"`. -/
theorem c5_witness :
    ∃ fuel out, split_text_into_chunks 1 0 fuel ['a', ' ', 'b'] = some out ∧
      (out.map pySplit).flatten = pySplit ['a', ' ', 'b'] :=
  c5_chunks_reconstruct 1 ['a', ' ', 'b'] (by decide)

theorem add_document_loop_covered (hashFn : List Char → String) (bs : Nat)
    (flushOk : Nat → Bool) (seen0 : List String) :
    ∀ (chunks : List (List Char)) (s : IngestState), SeenCovered hashFn seen0 s →
      SeenCovered hashFn seen0 (add_document_loop hashFn bs flushOk chunks s).2 := by
  intro chunks
  induction chunks with
  | nil => intro s hs; exact hs
  | cons chunk rest ih =>
    intro s hs
    by_cases hq : passes_quality_check chunk = false
    · rw [add_document_loop, if_pos hq]
      exact ih s hs
    · rw [add_document_loop, if_neg hq]
      by_cases hm : hashFn chunk ∈ s.seen
      · rw [if_pos hm]
        exact ih s hs
      · rw [if_neg hm]
        by_cases hb : bs ≤ s.batch.length + 1
        · rw [if_pos hb]
          by_cases hf : flushOk s.flushIdx = true
          · rw [if_pos hf]
            apply ih
            intro h hh
            simp only [List.mem_append, List.mem_singleton] at hh
            rcases hh with hh | rfl
            · rcases hs h hh with h0 | ⟨c, hc, he⟩
              · exact Or.inl h0
              · refine Or.inr ⟨c, ?_, he⟩
                left
                simp only [List.mem_append]
                tauto
            · exact Or.inr ⟨chunk, by simp, rfl⟩
          · rw [if_neg hf]
            intro h hh
            simp only [List.mem_append, List.mem_singleton] at hh
            rcases hh with hh | rfl
            · rcases hs h hh with h0 | ⟨c, hc, he⟩
              · exact Or.inl h0
              · refine Or.inr ⟨c, ?_, he⟩
                simp only [List.mem_append]
                tauto
            · exact Or.inr ⟨chunk, by simp, rfl⟩
        · rw [if_neg hb]
          apply ih
          intro h hh
          simp only [List.mem_append, List.mem_singleton] at hh
          rcases hh with hh | rfl
          · rcases hs h hh with h0 | ⟨c, hc, he⟩
            · exact Or.inl h0
            · refine Or.inr ⟨c, ?_, he⟩
              simp only [List.mem_append]
              tauto
          · exact Or.inr ⟨chunk, by simp, rfl⟩

/-! ## Claim C2 -/

/-- C2 (amended): after an `add_document` call that returns `True`, every
hash in `seen_hashes` is either pre-existing or the hash of a chunk that was
persisted by a successful batch flush. -/
theorem c2_seen_hashes_persisted_on_success (hashFn : List Char → String)
    (bs : Nat) (flushOk : Nat → Bool) (fuel cs ov : Nat) (text : List Char)
    (seen0 : List String) (s : IngestState)
    (hrun : add_document hashFn bs flushOk fuel cs ov text seen0 = some (true, s)) :
    ∀ h ∈ s.seen, h ∈ seen0 ∨ ∃ c ∈ s.persisted, hashFn c = h := by
  unfold add_document at hrun
  cases hsplit : split_text_into_chunks cs ov fuel text with
  | none => rw [hsplit] at hrun; exact absurd hrun (by simp)
  | some chunks =>
    rw [hsplit] at hrun
    dsimp only at hrun
    rcases hloop : add_document_loop hashFn bs flushOk chunks ⟨[], seen0, [], 0⟩
      with ⟨ok, sl⟩
    rw [hloop] at hrun
    have hcov : SeenCovered hashFn seen0 sl := by
      have h0 : SeenCovered hashFn seen0 ⟨[], seen0, [], 0⟩ := fun h hh => Or.inl hh
      have hc := add_document_loop_covered hashFn bs flushOk seen0 chunks
        ⟨[], seen0, [], 0⟩ h0
      rw [hloop] at hc
      exact hc
    cases ok with
    | false => exact absurd hrun (by simp)
    | true =>
      dsimp only at hrun
      by_cases hbe : sl.batch.isEmpty
      · rw [if_pos hbe] at hrun
        have hsl : sl = s := by
          simpa using hrun
        subst hsl
        intro h hh
        rcases hcov h hh with h0 | ⟨c, hc, he⟩
        · exact Or.inl h0
        · rcases hc with hc | hc
          · exact Or.inr ⟨c, hc, he⟩
          · rw [List.isEmpty_iff] at hbe
            rw [hbe] at hc
            exact absurd hc (List.not_mem_nil c)
      · rw [if_neg hbe] at hrun
        by_cases hf : flushOk sl.flushIdx = true
        · rw [if_pos hf] at hrun
          have hs : (⟨[], sl.seen, sl.persisted ++ sl.batch, sl.flushIdx + 1⟩ :
              IngestState) = s := by
            simpa using hrun
          subst hs
          intro h hh
          rcases hcov h hh with h0 | ⟨c, hc, he⟩
          · exact Or.inl h0
          · refine Or.inr ⟨c, ?_, he⟩
            simp only [List.mem_append]
            tauto
        · rw [if_neg hf] at hrun
          exact absurd hrun (by simp)

theorem c2text_quality : passes_quality_check c2text = true := by
  have h1 : c2text.isEmpty = false := by decide
  have h2 : (pyStrip c2text).length = 109 := by decide
  have h3 : (pySplit c2text).length = 10 := by decide
  have h4 : (c2text.filter Char.isAlpha).length = 100 := by decide
  have h5 : c2text.length = 109 := by decide
  have h6 : ((pySplit c2text).map List.length).sum = 100 := by decide
  have h7 : (pySplit c2text).isEmpty = false := by decide
  unfold passes_quality_check
  rw [h1, h2, h3, h4, h5, h6, h7]
  norm_num

theorem c2text_chunks :
    split_text_into_chunks chunkSizeDefault chunkOverlapDefault 1 c2text =
      some [c2text] := by
  unfold split_text_into_chunks
  rw [if_pos (by decide)]

theorem c2text_loop (flushOk : Nat → Bool) :
    add_document_loop hashEnc batchSizeDefault flushOk [c2text] ⟨[], [], [], 0⟩ =
      (true, ⟨[c2text], [hashEnc c2text], [], 0⟩) := by
  rw [add_document_loop, if_neg (by rw [c2text_quality]; simp),
    if_neg (by simp), if_neg (by decide), add_document_loop]
  rfl

theorem c2run_fail :
    add_document hashEnc batchSizeDefault (fun _ => false) 1 chunkSizeDefault
        chunkOverlapDefault c2text [] =
      some (false, ⟨[c2text], [hashEnc c2text], [], 1⟩) := by
  unfold add_document
  rw [c2text_chunks]
  dsimp only
  rw [c2text_loop]
  decide

theorem c2run_ok :
    add_document hashEnc batchSizeDefault (fun _ => true) 1 chunkSizeDefault
        chunkOverlapDefault c2text [] =
      some (true, ⟨[], [hashEnc c2text], [c2text], 1⟩) := by
  unfold add_document
  rw [c2text_chunks]
  dsimp only
  rw [c2text_loop]
  decide

/-- C2 counterexample: `add_document` with a failing batch flush returns
`False`, yet the hash of the (unpersisted) chunk is left in `seen_hashes`;
so it is not the case that every hash in the cache corresponds to a chunk
that was persisted. -/
theorem c2_counterexample :
    add_document hashEnc batchSizeDefault (fun _ => false) 1 chunkSizeDefault
        chunkOverlapDefault c2text [] =
      some (false, ⟨[c2text], [hashEnc c2text], [], 1⟩) ∧
    ¬ (∀ h ∈ (⟨[c2text], [hashEnc c2text], [], 1⟩ : IngestState).seen,
        ∃ c ∈ (⟨[c2text], [hashEnc c2text], [], 1⟩ : IngestState).persisted,
          hashEnc c = h) := by
  refine ⟨c2run_fail, fun hcl => ?_⟩
  rcases hcl (hashEnc c2text) (by simp) with ⟨c, hc, -⟩
  simp at hc

/-- C2 witness: the amended theorem applied to a successful concrete run. -/
theorem c2_witness :
    hashEnc c2text ∈ ([] : List String) ∨
      ∃ c ∈ (⟨[], [hashEnc c2text], [c2text], 1⟩ : IngestState).persisted,
        hashEnc c = hashEnc c2text :=
  c2_seen_hashes_persisted_on_success hashEnc batchSizeDefault (fun _ => true) 1
    chunkSizeDefault chunkOverlapDefault c2text [] _ c2run_ok
    (hashEnc c2text) (by simp)

/-! ## Claim C3 -/

/-- C3 counterexample: when all three attempts fail, `_add_batch` returns
`False` and its very last action is the third (failed) attempt — no fresh
backend connection is attempted after the attempts are exhausted, contrary to
the claim (reconnects happen between attempts instead). -/
theorem c3_counterexample :
    (add_batch (fun _ => false)).1 = false ∧
    (add_batch (fun _ => false)).2.getLast? = some (RetryEvent.attempt 2) := by
  decide

/-- C3 (amended): `_add_batch` makes at most 3 write attempts; it returns
`False` exactly when all three attempts fail; and in that case the full
event trace is: attempt 0, sleep 1 s, reconnect, attempt 1, sleep 2 s,
reconnect, attempt 2 — the backoff starts at 1 s and doubles, a reconnect is
attempted after each failed non-final attempt, none after the final one, and
only the final attempt's failure is surfaced as the `False` return. -/
theorem c3_retry_schedule (addOk : Nat → Bool) :
    ((add_batch addOk).2.countP isAttemptEv ≤ 3) ∧
    ((add_batch addOk).1 = false ↔
      addOk 0 = false ∧ addOk 1 = false ∧ addOk 2 = false) ∧
    (addOk 0 = false → addOk 1 = false → addOk 2 = false →
      add_batch addOk = (false,
        [RetryEvent.attempt 0, RetryEvent.sleep 1, RetryEvent.reconnect,
         RetryEvent.attempt 1, RetryEvent.sleep 2, RetryEvent.reconnect,
         RetryEvent.attempt 2])) := by
  have hr : List.range 3 = [0, 1, 2] := by decide
  unfold add_batch
  rw [hr]
  cases h0 : addOk 0 <;> cases h1 : addOk 1 <;> cases h2 : addOk 2 <;>
    simp [add_batch_from, h0, h1, h2, isAttemptEv, List.countP_cons]

/-- C3 witness: the amended theorem applied to the all-fail oracle. -/
theorem c3_witness :
    add_batch (fun _ => false) = (false,
      [RetryEvent.attempt 0, RetryEvent.sleep 1, RetryEvent.reconnect,
       RetryEvent.attempt 1, RetryEvent.sleep 2, RetryEvent.reconnect,
       RetryEvent.attempt 2]) :=
  (c3_retry_schedule (fun _ => false)).2.2 rfl rfl rfl

/-! ## Claim C4 -/

/-- C4: for every backend response, `search` returns only results whose
similarity score `1/(1+distance)` is at least the threshold, sorted in
descending order of similarity score, and at most `n_results` of them. -/
theorem c4_search_postconditions (n : Nat) (t : ℚ) (rows : List RawRow) :
    (∀ r ∈ search n t rows, t ≤ r.similarity_score) ∧
    List.Sorted scoreGE (search n t rows) ∧
    (search n t rows).length ≤ n := by
  refine ⟨?_, ?_, ?_⟩
  · intro r hr
    unfold search at hr
    have hmem : r ∈ rows.filterMap fun row =>
        if t ≤ similarityScore row.distance then some (toSearchResult row)
        else none := by
      have h1 := List.mem_of_mem_take hr
      rwa [List.mem_insertionSort] at h1
    rcases List.mem_filterMap.mp hmem with ⟨row, -, hres⟩
    by_cases hc : t ≤ similarityScore row.distance
    · rw [if_pos hc] at hres
      obtain rfl := Option.some.inj hres
      exact hc
    · rw [if_neg hc] at hres
      exact absurd hres (by simp)
  · exact List.Pairwise.sublist (List.take_sublist n _)
      (List.sorted_insertionSort scoreGE _)
  · exact List.length_take_le n _

/-- C4 witness: the theorem applied at a concrete input. -/
theorem c4_witness : (search 1 (9 / 10) []).length ≤ 1 :=
  (c4_search_postconditions 1 (9 / 10) []).2.2

/-! ## Claim C6 -/

/-- C6: in global search mode at most 2 chunks are taken per document, the
combined list is sorted by similarity score descending and truncated to the
top 4; consequently any result with a strictly higher score (such as document
A's 0.9 chunk versus document B's 0.4 chunk) precedes any result with a
strictly lower one. -/
theorem c6_global_search_ranking (perDoc : List (String × List RawRow)) :
    (∀ p ∈ perDoc, (doc_contribution p).length ≤ 2) ∧
    List.Sorted gscoreGE (handle_global_search perDoc) ∧
    (handle_global_search perDoc).length ≤ 4 ∧
    (∀ i j : Fin (handle_global_search perDoc).length,
      ((handle_global_search perDoc).get i).res.similarity_score <
        ((handle_global_search perDoc).get j).res.similarity_score →
      (j : Nat) < (i : Nat)) := by
  have hsorted : List.Sorted gscoreGE (handle_global_search perDoc) :=
    List.Pairwise.sublist (List.take_sublist 4 _)
      (List.sorted_insertionSort gscoreGE _)
  refine ⟨?_, hsorted, ?_, ?_⟩
  · intro p hp
    unfold doc_contribution
    rw [List.length_map]
    exact List.length_take_le 2 _
  · exact List.length_take_le 4 _
  · intro i j hij
    rcases lt_trichotomy (i : Nat) (j : Nat) with h | h | h
    · have hr := hsorted.rel_get_of_lt (show i < j from h)
      exact absurd hij (not_lt.mpr hr)
    · have hej : i = j := Fin.ext h
      rw [hej] at hij
      exact absurd hij (lt_irrefl _)
    · exact h

/-- C6 witness: the theorem applied at a concrete input. -/
theorem c6_witness : (handle_global_search [("a", []), ("b", [])]).length ≤ 4 :=
  (c6_global_search_ranking [("a", []), ("b", [])]).2.2.1

/-! ## Claim C7 -/

/-- C7: when both the native text and the best OCR text fail the sufficiency
check, the page result is the native text whenever it is non-empty, and
otherwise the best OCR text (which may be empty). -/
theorem c7_insufficient_page_fallback (page_text ocr_text : List Char)
    (h1 : is_text_sufficient page_text = false)
    (h2 : is_text_sufficient ocr_text = false) :
    process_page page_text ocr_text =
      if page_text ≠ [] then page_text else ocr_text := by
  unfold process_page
  rw [h1, h2]
  simp

/-- C7 witness: the theorem applied to a non-empty insufficient native text
and an empty OCR text. -/
theorem c7_witness : process_page ['x'] [] = ['x'] :=
  (c7_insufficient_page_fallback ['x'] [] (by decide) (by decide)).trans (by decide)

/-! ## Claim C8 -/

/-- C8: `extract_paragraphs_from_pdf` is total (a failed open yields `[]`),
a page whose task raised an exception contributes no entry, and a document
whose pages all yield nothing produces the empty sequence. -/
theorem c8_extraction_total :
    extract_paragraphs_from_pdf none = [] ∧
    (∀ xs ys : List PageOutcome,
      extract_paragraphs_from_pdf (some (xs ++ PageOutcome.exc :: ys)) =
        extract_paragraphs_from_pdf (some xs) ++
          extract_paragraphs_from_pdf (some ys)) ∧
    (∀ pages : List PageOutcome, (∀ p ∈ pages, page_entry p = none) →
      extract_paragraphs_from_pdf (some pages) = []) := by
  refine ⟨rfl, ?_, ?_⟩
  · intro xs ys
    unfold extract_paragraphs_from_pdf
    dsimp only
    rw [List.filterMap_append]
    simp [List.filterMap_cons, page_entry]
  · intro pages hp
    unfold extract_paragraphs_from_pdf
    exact List.filterMap_eq_nil_iff.mpr hp

/-- C8 witness: the all-pages-fail part applied to a single raising page. -/
theorem c8_witness : extract_paragraphs_from_pdf (some [PageOutcome.exc]) = [] :=
  c8_extraction_total.2.2 [PageOutcome.exc] (by decide)

/-! ## Claim C9 -/

/-- C9: the similarity scoring function `1/(1+distance)` maps distance 0 to
score 1 and is strictly decreasing on non-negative distances. -/
theorem c9_similarity_monotone :
    similarityScore 0 = 1 ∧
    ∀ d₁ d₂ : ℚ, 0 ≤ d₁ → d₁ < d₂ →
      similarityScore d₂ < similarityScore d₁ := by
  constructor
  · unfold similarityScore
    norm_num
  · intro d₁ d₂ h1 h2
    unfold similarityScore
    exact one_div_lt_one_div_of_lt (by linarith) (by linarith)

/-- C9 witness: the theorem applied at distances 0 and 1. -/
theorem c9_witness : similarityScore 1 < similarityScore 0 :=
  c9_similarity_monotone.2 0 1 (le_refl 0) (by norm_num)

/-! ## Claim C10 -/

/-- C10: if the backend reset fails, `clear_all` returns `False` and leaves
the `seen_hashes` cache untouched; the cache is cleared only on a successful
reset. -/
theorem c10_clear_all_atomic (seen : List String) :
    clear_all false seen = (false, seen) ∧ clear_all true seen = (true, []) :=
  ⟨rfl, rfl⟩
